import Mathlib

/-!
Verification development for the MCP documentation server
(`mcp-server/http_server.py`, `mcp-server/mcp_protocol_server.py`,
`mcp-server/continue_full_compatible.py`, `mcp-server/documentation_server.py`).

Python strings are modelled as lists of Unicode code points (`List Nat`);
the filesystem is modelled as explicit data (directory entries with names,
project directories with files); Python exceptions become an explicit
`PyResult` type; the JSON-RPC dispatcher becomes a pure function over a
session state and an oracle for the I/O-performing service calls.
-/

/-- Python strings as lists of Unicode code points. -/
abbrev Str := List Nat

/-- Turn a Lean string literal into its code-point list. -/
def strLit (s : String) : Str := s.data.map Char.toNat

/-- Lowercasing of one code point, as Python `str.lower` acts on ASCII
(the repository's method names, URI tags and file names are ASCII). -/
def pyLowerChar (c : Nat) : Nat := if 65 ≤ c ∧ c ≤ 90 then c + 32 else c

/-- `str.lower` on a whole string. -/
def pyLower (s : Str) : Str := s.map pyLowerChar

/-- ASCII whitespace, the separator set of Python `str.split()` relevant here. -/
def isWsChar (c : Nat) : Bool := c = 9 || c = 10 || c = 11 || c = 12 || c = 13 || c = 32

/-- Helper for `pySplitWs`: `acc` is the current (reversed) token. -/
def splitWsAux : Str → Str → List Str
  | [], acc => if acc = [] then [] else [acc.reverse]
  | ch :: rest, acc =>
    if isWsChar ch then
      if acc = [] then splitWsAux rest [] else acc.reverse :: splitWsAux rest []
    else splitWsAux rest (ch :: acc)

/-- Python `str.split()` (split on whitespace runs, no empty tokens). -/
def pySplitWs (s : Str) : List Str := splitWsAux s []

/-- Helper for `strCount`: scans the haystack left to right; after a match
the next `needle.length - 1` positions are skipped (non-overlapping count).
The needle is assumed non-empty (the wrapper handles the empty needle). -/
def strCountAux (needle : Str) : Str → Nat → Nat
  | [], _ => 0
  | _ :: rest, k + 1 => strCountAux needle rest k
  | c :: rest, 0 =>
    if needle.isPrefixOf (c :: rest) then 1 + strCountAux needle rest (needle.length - 1)
    else strCountAux needle rest 0

/-- Python `str.count`: number of non-overlapping occurrences of `needle`
in `hay`; an empty needle counts `hay.length + 1` times, as in Python. -/
def strCount (hay needle : Str) : Nat :=
  if needle = [] then hay.length + 1 else strCountAux needle hay 0

/-! ## Python exceptions and results -/

/-- The Python exceptions relevant to the dispatcher: `ValueError` (mapped to
`-32602`), `IndexError` (message `list index out of range`), and any other
exception such as `FileNotFoundError` (mapped to `-32000`). -/
inductive PyErr where
  | valueError (msg : Str)
  | indexError
  | otherError (msg : Str)
deriving DecidableEq, Repr

/-- Outcome of a Python computation: a value or a raised exception. -/
inductive PyResult (α : Type) where
  | ok (a : α)
  | exc (e : PyErr)
deriving DecidableEq, Repr

/-- `str(exc)` for the modelled exceptions. -/
def PyErr.text : PyErr → Str
  | .valueError m => m
  | .indexError => strLit "list index out of range"
  | .otherError m => m

/-- The error code the JSON-RPC dispatcher assigns to a caught exception:
`except ValueError` gives `-32602`, the broad `except Exception` gives
`-32000` (`http_server.py`, lines 78-82). -/
def pyErrCode : PyErr → Int
  | .valueError _ => -32602
  | _ => -32000

/-- Map over the value of a `PyResult`. -/
def PyResult.map (f : α → β) : PyResult α → PyResult β
  | .ok a => .ok (f a)
  | .exc e => .exc e

/-! ## URI resolver (`_read_resource_via_service` in `http_server.py`,
`handle_read_resource` in `mcp_protocol_server.py`) -/

/-- Typed form of a resolved resource URI. -/
inductive RLoc where
  | project (language project : Str)
  | readme (language project : Str)
  | module (language project module : Str)
deriving DecidableEq, Repr

/-- Python `str.split(sep)` for a one-character separator: always returns at
least one piece; adjacent separators give empty pieces. -/
def splitSep (sep : Nat) : Str → List Str
  | [] => [[]]
  | ch :: rest =>
    if ch = sep then [] :: splitSep sep rest
    else
      match splitSep sep rest with
      | [] => [[ch]]
      | t :: ts => (ch :: t) :: ts

/-- Join pieces with a separator (inverse of `splitSep` on separator-free
pieces). -/
def joinSep (sep : Nat) : List Str → Str
  | [] => []
  | [t] => t
  | t :: ts => t ++ sep :: joinSep sep ts

/-- The code-point of `/`. -/
def slash : Nat := 47

/-- The scheme marker `mcp-docs://` stripped from the front of resource URIs. -/
def schemeTag : Str := strLit "mcp-docs://"

/-- Python list indexing: `IndexError` when out of range. -/
def pyIndex (l : List Str) (i : Nat) : PyResult Str :=
  match l.get? i with
  | some v => .ok v
  | none => .exc .indexError

/-- URI resolution as performed by `_read_resource_via_service`
(`http_server.py`, lines 88-106): strip the scheme, split the remainder on
`/`, read the type tag, and read the positional segments the type needs.
Out-of-range segment access raises `IndexError`; a missing scheme or unknown
type raises `ValueError`. Extra segments are simply not read. -/
def resolveUri (uri : Str) : PyResult RLoc :=
  if schemeTag.isPrefixOf uri then
    let comps := splitSep slash (uri.drop schemeTag.length)
    match pyIndex comps 0 with
    | .exc e => .exc e
    | .ok rtype =>
      if rtype = strLit "project" then
        match pyIndex comps 1 with
        | .exc e => .exc e
        | .ok language =>
          match pyIndex comps 2 with
          | .exc e => .exc e
          | .ok project => .ok (.project language project)
      else if rtype = strLit "readme" then
        match pyIndex comps 1 with
        | .exc e => .exc e
        | .ok language =>
          match pyIndex comps 2 with
          | .exc e => .exc e
          | .ok project => .ok (.readme language project)
      else if rtype = strLit "module" then
        match pyIndex comps 1 with
        | .exc e => .exc e
        | .ok language =>
          match pyIndex comps 2 with
          | .exc e => .exc e
          | .ok project =>
            match pyIndex comps 3 with
            | .exc e => .exc e
            | .ok module => .ok (.module language project module)
      else .exc (.valueError (strLit "Unknown resource type: " ++ rtype))
  else .exc (.valueError (strLit "Unsupported URI scheme"))

/-- URI composition, from the f-strings of `handle_list_resources`
(`mcp_protocol_server.py`, lines 75-101). -/
def composeUri : RLoc → Str
  | .project language project =>
      strLit "mcp-docs://project/" ++ language ++ slash :: project
  | .readme language project =>
      strLit "mcp-docs://readme/" ++ language ++ slash :: project
  | .module language project module =>
      strLit "mcp-docs://module/" ++ language ++ slash :: project ++ slash :: module

/-- A component is usable in a URI when it contains no path separator. -/
def noSlash (s : Str) : Bool := !(s.contains slash)

/-- A locator is valid when none of its components contains `/`. -/
def locOk : RLoc → Bool
  | .project language project => noSlash language && noSlash project
  | .readme language project => noSlash language && noSlash project
  | .module language project module => noSlash language && noSlash project && noSlash module

/-- A URI is syntactically valid (in normalized form) when it carries the
scheme marker and splits into exactly the segment count its type tag fixes:
two segments for `project`/`readme`, three for `module`. -/
def validUri (u : Str) : Bool :=
  schemeTag.isPrefixOf u &&
  (match splitSep slash (u.drop schemeTag.length) with
   | [t, _, _] => t == strLit "project" || t == strLit "readme"
   | [t, _, _, _] => t == strLit "module"
   | _ => false)

/-- Resolve then re-compose a URI. -/
def recomposeUri (u : Str) : PyResult Str := (resolveUri u).map composeUri

/-- Build the URI `mcp-docs://t/s₁/…/sₙ` from a type tag and segments. -/
def mkUri (t : Str) (segs : List Str) : Str := schemeTag ++ joinSep slash (t :: segs)

/-! ## JSON-RPC dispatcher (`_handle_json_rpc` and `root_post` in
`http_server.py`) -/

/-- A JSON-RPC `id`: a number, a string, or `null` (a missing `id` behaves
exactly like `null`, since `payload.get("id")` yields `None` for both). -/
inductive JsonId where
  | null
  | num (n : Int)
  | str (s : Str)
deriving DecidableEq, Repr

/-- The request parameters the dispatcher reads. -/
structure RpcParams where
  protocolVersion : Option Str
  uri : Option Str
  name : Option Str
deriving DecidableEq, Repr

/-- An inbound request envelope (a JSON object). `rpcOk` records whether
`payload.get("jsonrpc") == "2.0"`; `method` is `none` when the key is
absent. -/
structure RpcRequest where
  rpcOk : Bool
  rid : JsonId
  method : Option Str
  params : RpcParams
deriving DecidableEq, Repr

/-- A JSON-RPC error object. -/
structure RpcError where
  code : Int
  message : Str
deriving DecidableEq, Repr

/-- The possible `result` payloads of the dispatcher's branches. -/
inductive RValue where
  | initResult (protocolVersion : Str)
  | toolsList
  | resourcesList
  | resourceContents (contents : List Str)
  | toolContent (text : Str)
  | promptsList
  | ack
deriving DecidableEq, Repr

/-- An outbound response envelope: the echoed `id` plus the `result` and
`error` keys (each present or absent). -/
structure RpcResponse where
  rid : JsonId
  result : Option RValue
  error : Option RpcError
deriving DecidableEq, Repr

/-- The HTTP app's session state (`app.state.session`). -/
structure Session where
  initializedFlag : Bool
  protoVersion : Option Str
deriving DecidableEq, Repr

/-- Outcomes of the I/O-performing service calls the dispatcher delegates
to: reading a resolved resource and executing a tool. Quantifying theorems
over the oracle covers every handler outcome, including failures. -/
structure ServiceOracle where
  readLoc : RLoc → PyResult Str
  execTool : Str → PyResult Str

/-- `_read_resource_via_service`: resolve the URI, read the located
resource, and wrap the text in a one-element contents list. -/
def readResourceViaService (o : ServiceOracle) (uri : Str) : PyResult (List Str) :=
  match resolveUri uri with
  | .exc e => .exc e
  | .ok loc =>
    match o.readLoc loc with
    | .exc e => .exc e
    | .ok text => .ok [text]

/-- Response with only an `error` member. -/
def errResp (rid : JsonId) (code : Int) (message : Str) : RpcResponse :=
  ⟨rid, none, some ⟨code, message⟩⟩

/-- Response with only a `result` member. -/
def okResp (rid : JsonId) (v : RValue) : RpcResponse :=
  ⟨rid, some v, none⟩

/-- The dispatcher `_handle_json_rpc` (`http_server.py`, lines 14-85) as a
pure function: a malformed envelope yields `-32600`; each known method
produces a `result`; an unknown method yields `-32601`; a `ValueError`
raised inside the `try` yields `-32602` and any other exception `-32000`. -/
def handleJsonRpc (o : ServiceOracle) (st : Session) (req : RpcRequest) :
    Session × RpcResponse :=
  if req.rpcOk = false then
    (st, errResp req.rid (-32600) (strLit "Invalid Request"))
  else
    match req.method with
    | none => (st, errResp req.rid (-32601) (strLit "Method not found: None"))
    | some m =>
      if m = strLit "initialize" then
        let pv := req.params.protocolVersion.getD (strLit "2024-11-05")
        (⟨true, some pv⟩, okResp req.rid (.initResult pv))
      else if m = strLit "listTools" then (st, okResp req.rid .toolsList)
      else if m = strLit "tools/list" then (st, okResp req.rid .toolsList)
      else if m = strLit "listResources" then (st, okResp req.rid .resourcesList)
      else if m = strLit "resources/list" then (st, okResp req.rid .resourcesList)
      else if m = strLit "readResource" ∨ m = strLit "resources/read" then
        match req.params.uri with
        | none => (st, errResp req.rid (-32602) (strLit "uri is required"))
        | some u =>
          if u = [] then (st, errResp req.rid (-32602) (strLit "uri is required"))
          else
            match readResourceViaService o u with
            | .ok contents => (st, okResp req.rid (.resourceContents contents))
            | .exc e => (st, errResp req.rid (pyErrCode e) e.text)
      else if m = strLit "callTool" then
        match req.params.name with
        | none => (st, errResp req.rid (-32602) (strLit "name is required"))
        | some n =>
          if n = [] then (st, errResp req.rid (-32602) (strLit "name is required"))
          else
            match o.execTool n with
            | .ok text => (st, okResp req.rid (.toolContent text))
            | .exc e => (st, errResp req.rid (pyErrCode e) e.text)
      else if m = strLit "prompts/list" then (st, okResp req.rid .promptsList)
      else if m = strLit "notifications/initialized" then (st, okResp req.rid .ack)
      else (st, errResp req.rid (-32601) (strLit "Method not found: " ++ m))

/-- The batch branch of `root_post` (`http_server.py`, lines 166-168): the
list comprehension evaluates the handler on each envelope in order, with the
shared `app.state` threaded through. -/
def processBatch (o : ServiceOracle) (st : Session) :
    List RpcRequest → Session × List RpcResponse
  | [] => (st, [])
  | r :: rs =>
    let p := handleJsonRpc o st r
    let q := processBatch o p.1 rs
    (q.1, p.2 :: q.2)

/-- A placeholder request (for positional access with `getD`). -/
def dReq : RpcRequest := ⟨false, .null, none, ⟨none, none, none⟩⟩

/-- A placeholder response (for positional access with `getD`). -/
def dResp : RpcResponse := ⟨.null, none, none⟩

/-- The `initialize` envelope of the batch example. -/
def initExample : RpcRequest :=
  ⟨true, .num 1, some (strLit "initialize"), ⟨none, none, none⟩⟩

/-- The unknown-method envelope of the batch example. -/
def bogusExample : RpcRequest :=
  ⟨true, .num 2, some (strLit "bogus"), ⟨none, none, none⟩⟩

/-! ## Search engine (`_search_documentation` in `mcp_protocol_server.py`,
lines 314-358) -/

/-- A documentation file in scope: its name and its text content. -/
structure MdFile where
  fname : Str
  content : Str
deriving DecidableEq, Repr

/-- A project directory and the markdown files found under it by
`project_dir.rglob("*.md")`, in traversal order. -/
structure ProjectDir where
  pname : Str
  files : List MdFile
deriving DecidableEq, Repr

/-- One configured language: its `name`, whether the directory named by its
`display_name` exists, and the project directories under it, in iteration
order. -/
structure LangDir where
  lname : Str
  dirExists : Bool
  projects : List ProjectDir
deriving DecidableEq, Repr

/-- A search hit, as appended by the scan loop. -/
structure Hit where
  hlang : Str
  hproject : Str
  hfile : Str
  score : Nat
  preview : Str
deriving DecidableEq, Repr

/-- The optional `language`/`project` filters: `if language and
lang_config["name"] != language: continue` keeps an entry when the filter is
absent, empty (falsy), or equal to the name. -/
def filtMatch (o : Option Str) (n : Str) : Bool :=
  match o with
  | none => true
  | some s => s.isEmpty || n == s

/-- `sum(content.count(term) for term in search_terms)` over an
already-lowercased content string. -/
def searchScore (terms : List Str) (contentLower : Str) : Nat :=
  terms.foldl (fun acc t => acc + strCount contentLower t) 0

/-- The fixed result-list cap (`results[:20]`). -/
def maxSearchResults : Nat := 20

/-- The hit list accumulated by the nested scan loops, in traversal order:
languages filtered by the `language` argument and by directory existence,
projects filtered by the `project` argument, and each markdown file kept
only when its score is positive. -/
def collectHits (cfg : List LangDir) (query : Str) (lf pf : Option Str) : List Hit :=
  let terms := pySplitWs (pyLower query)
  ((cfg.filter (fun lc => filtMatch lf lc.lname && lc.dirExists)).map (fun lc =>
    ((lc.projects.filter (fun pd => filtMatch pf pd.pname)).map (fun pd =>
      pd.files.filterMap (fun f =>
        let contentLower := pyLower f.content
        let sc := searchScore terms contentLower
        if 0 < sc then
          some ⟨lc.lname, pd.pname, f.fname, sc, contentLower.take 200 ++ strLit "..."⟩
        else none))).flatten)).flatten

/-- Stable descending insertion: place `x` after every already-placed hit
whose score is strictly greater, and before the rest. -/
def insertHit (x : Hit) : List Hit → List Hit
  | [] => [x]
  | y :: ys => if x.score < y.score then y :: insertHit x ys else x :: y :: ys

/-- `results.sort(key=lambda x: x["score"], reverse=True)`: Python's sort is
stable, so equal scores keep their traversal order. -/
def sortDesc : List Hit → List Hit
  | [] => []
  | x :: xs => insertHit x (sortDesc xs)

/-- The value returned by the search tool. -/
structure SearchOut where
  total : Nat
  results : List Hit
deriving DecidableEq, Repr

/-- `_search_documentation`: collect the hits, sort them by score
descending, report `total_results = len(results)` and the first 20 hits. -/
def searchDocumentation (cfg : List LangDir) (query : Str) (lf pf : Option Str) :
    SearchOut :=
  let sorted := sortDesc (collectHits cfg query lf pf)
  ⟨sorted.length, sorted.take maxSearchResults⟩

/-- Spec-side formula: the case-insensitive substring occurrence count of
`term` in `content` (count after lowercasing both). -/
def ciOccCount (content term : Str) : Nat := strCount (pyLower content) (pyLower term)

/-- Spec-side formula: the score of a file is the sum, over the
whitespace-split lowercase-normalized query terms (duplicates counted
multiple times), of the case-insensitive occurrence count of the term in
the file content. -/
def specScore (query content : Str) : Nat :=
  ((pySplitWs (pyLower query)).map (ciOccCount content)).sum

/-! ## Quality engine and `create_documentation`
(`continue_full_compatible.py`, `handle_call_tool`, lines 619-809) -/

/-- The files and directories of one project, as the rubric sees them:
`top` holds the names of the entries directly inside the project directory
(what `project_dir.glob(...)` and `(project_dir / name).exists()` consult),
`deep` the names of all entries at any depth (what `rglob` consults). -/
structure ProjectFS where
  top : List Str
  deep : List Str
deriving DecidableEq, Repr

/-- `sub` occurs as a contiguous substring of the second argument. -/
def hasSub (sub : Str) : Str → Bool
  | [] => sub.isEmpty
  | c :: rest => sub.isPrefixOf (c :: rest) || hasSub sub rest

/-- Matching a glob pattern of the shape `*mid*suffix` (such as `*api*.md`)
against a name: the name ends with `suffix` and contains `mid` somewhere
before that suffix. `pathlib.Path.glob` does not hide dot-leading names, so
no dotfile exclusion applies. -/
def globMatchMidSuf (mid suf n : Str) : Bool :=
  suf.isSuffixOf n && hasSub mid (n.take (n.length - suf.length))

/-- The `*mid*suffix` pattern under the `pathlib` glob semantics the rubric
actually runs with: `mcp_root` is hard-coded to `D:/data/MCP/mcp-docs`
(`continue_full_compatible.py`, line 32), so globbing happens on Windows,
where patterns are compiled with `re.IGNORECASE` — pattern and name are
compared case-insensitively. -/
def winGlobMidSuf (mid suf n : Str) : Bool :=
  globMatchMidSuf (pyLower mid) (pyLower suf) (pyLower n)

/-- Matching the glob pattern `*suffix` (such as `*.md`) against a name. -/
def globMatchSuf (suf n : Str) : Bool := suf.isSuffixOf n

/-- The `*suffix` pattern under the same case-insensitive Windows glob
semantics. -/
def winGlobSuf (suf n : Str) : Bool := globMatchSuf (pyLower suf) (pyLower n)

/-- One emitted rubric check: type tag, status, supporting file list, and
the points this rule contributed. -/
structure Check where
  ctype : Str
  cstatus : Str
  cfiles : List Str
  points : Int
deriving DecidableEq, Repr

/-- README rule: 3 points when `README.md` exists in the project
directory. -/
def readmeRule (p : ProjectFS) : Check :=
  if p.top.contains (strLit "README.md") then
    ⟨strLit "readme", strLit "present", [], 3⟩
  else
    ⟨strLit "readme", strLit "missing", [], 0⟩

/-- The file list `list(project_dir.glob("*api*.md")) +
list(project_dir.glob("*API*.md"))` of the API-doc rule (under Windows glob
semantics the two patterns match the same names). -/
def apiDocs (p : ProjectFS) : List Str :=
  p.top.filter (winGlobMidSuf (strLit "api") (strLit ".md")) ++
  p.top.filter (winGlobMidSuf (strLit "API") (strLit ".md"))

/-- API-doc rule: 2 points when either glob matched. -/
def apiRule (p : ProjectFS) : Check :=
  if apiDocs p = [] then ⟨strLit "api_documentation", strLit "missing", [], 0⟩
  else ⟨strLit "api_documentation", strLit "present", apiDocs p, 2⟩

/-- The markdown files `list(project_dir.glob("*.md"))`. -/
def mdDocs (p : ProjectFS) : List Str := p.top.filter (winGlobSuf (strLit ".md"))

/-- Doc-file-count rule: 2 points for ≥ 2 markdown files, 1 point for
exactly 1, 0 otherwise. -/
def docFilesRule (p : ProjectFS) : Check :=
  if 2 ≤ (mdDocs p).length then
    ⟨strLit "documentation_files", strLit "good", mdDocs p, 2⟩
  else if (mdDocs p).length = 1 then
    ⟨strLit "documentation_files", strLit "basic", mdDocs p, 1⟩
  else
    ⟨strLit "documentation_files", strLit "missing", [], 0⟩

/-- A name matches one of the recognized source extensions
(`rglob(f"*{ext}")` for `.py`, `.java`, `.gd`, `.js`, `.ts`). -/
def codeMatch (n : Str) : Bool :=
  winGlobSuf (strLit ".py") n || winGlobSuf (strLit ".java") n || winGlobSuf (strLit ".gd") n ||
  winGlobSuf (strLit ".js") n || winGlobSuf (strLit ".ts") n

/-- Source-files rule: 1 point when any recognized source file is found
recursively. -/
def codeFilesRule (p : ProjectFS) : Check :=
  if p.deep.filter codeMatch = [] then ⟨strLit "code_files", strLit "missing", [], 0⟩
  else ⟨strLit "code_files", strLit "present", [], 1⟩

/-- Layout rule: 2 points when `src`, `lib` or `app` exists under the
project directory, else 1 point. -/
def layoutRule (p : ProjectFS) : Check :=
  if p.top.contains (strLit "src") || p.top.contains (strLit "lib") ||
     p.top.contains (strLit "app") then
    ⟨strLit "project_structure", strLit "good", [], 2⟩
  else
    ⟨strLit "project_structure", strLit "basic", [], 1⟩

/-- The quality report for one target. A not-found report carries no checks
and no score, mirroring the dict that only ever gains those keys after the
project is located. -/
structure QReport where
  found : Bool
  checks : List Check
  score : Int
  maxScore : Int
deriving DecidableEq, Repr

/-- The found-project branch of `check_documentation_quality`: the five
rules run in fixed order, each appending its check record and adding its
points to the running score (`quality_report["score"] += ...`). -/
def checkDocumentationQuality (p : ProjectFS) : QReport :=
  let score0 : Int := 0
  let c1 := readmeRule p
  let score1 := score0 + c1.points
  let c2 := apiRule p
  let score2 := score1 + c2.points
  let c3 := docFilesRule p
  let score3 := score2 + c3.points
  let c4 := codeFilesRule p
  let score4 := score3 + c4.points
  let c5 := layoutRule p
  let score5 := score4 + c5.points
  ⟨true, [c1, c2, c3, c4, c5], score5, 10⟩

/-- One entry directly under the MCP root: its name, whether it is a
directory, and the projects inside it (with their filesystem view). -/
structure RootEntry where
  ename : Str
  isDir : Bool
  projects : List (Str × ProjectFS)
deriving Repr

/-- Look up a project by name inside one language directory. -/
def lookupProj (ps : List (Str × ProjectFS)) (projectName : Str) : Option ProjectFS :=
  match ps.find? (fun q => q.1 == projectName) with
  | some q => some q.2
  | none => none

/-- The project search of `check_documentation_quality`: with a truthy
`language` argument the single directory `mcp_root / language` is searched;
otherwise every root directory except `templates` is tried in order. -/
def findProjectFS (entries : List RootEntry) (language projectName : Str) :
    Option ProjectFS :=
  if language ≠ [] then
    match entries.find? (fun e => e.isDir && e.ename == language) with
    | some e => lookupProj e.projects projectName
    | none => none
  else
    entries.findSome? (fun e =>
      if e.isDir && e.ename ≠ strLit "templates" then lookupProj e.projects projectName
      else none)

/-- The `check_documentation_quality` tool: locate the project, then apply
the rubric; report `found: false` when no project matched. -/
def qualityTool (entries : List RootEntry) (language projectName : Str) : QReport :=
  match findProjectFS entries language projectName with
  | some p => checkDocumentationQuality p
  | none => ⟨false, [], 0, 0⟩

/-- Result object of the `create_documentation` tool. -/
structure CreateOut where
  created : Bool
  message : Str
deriving DecidableEq, Repr

/-- `create_documentation` (`continue_full_compatible.py`, lines 748-809).
The `for` loop breaks only on an entry that is a directory named
`language` and contains the project; the loop's `else` clause otherwise
reports a missing language directory. The template formatting and
`write_text` sit inside a `try`, modelled by the `writeOutcome` oracle
whose exception is caught and turned into a message. The returned
`PyResult` records whether any exception escapes the handler. -/
def createDocumentation (rootExists : Bool) (entries : List RootEntry)
    (language projectName : Str) (writeOutcome : PyResult Unit) :
    PyResult CreateOut :=
  if rootExists then
    match entries.find? (fun e =>
        e.isDir && e.ename == language && (e.projects.map (fun q => q.1)).contains projectName) with
    | some _ =>
      match writeOutcome with
      | .ok _ => .ok ⟨true, strLit "文档已创建: " ++ projectName⟩
      | .exc e => .ok ⟨false, strLit "创建文档失败: " ++ e.text⟩
    | none => .ok ⟨false, strLit "语言目录不存在: " ++ language⟩
  else
    .ok ⟨false, strLit "MCP根目录不存在"⟩

/-- Value of `created` inside a `PyResult`-wrapped tool result. -/
def createdOf (r : PyResult CreateOut) : Option Bool :=
  match r with
  | .ok out => some out.created
  | .exc _ => none

/-- Whether the message inside a `PyResult`-wrapped tool result is empty. -/
def msgEmptyOf (r : PyResult CreateOut) : Option Bool :=
  match r with
  | .ok out => some out.message.isEmpty
  | .exc _ => none

/-- Whether a `PyResult` returned normally (no exception escaped). -/
def isOkResult : PyResult CreateOut → Bool
  | .ok _ => true
  | .exc _ => false

/-- Spec-side predicate for the API-doc rule: the name matches `*api*.md`
case-insensitively. -/
def ciApiMatch (n : Str) : Bool :=
  globMatchMidSuf (strLit "api") (strLit ".md") (pyLower n)

/-! ## Helper lemmas: strings -/

theorem pyLowerChar_idem (c : Nat) : pyLowerChar (pyLowerChar c) = pyLowerChar c := by
  unfold pyLowerChar
  split <;> (try split) <;> omega

theorem mem_splitWsAux (s : Str) :
    ∀ acc t, t ∈ splitWsAux s acc → ∀ ch, ch ∈ t → ch ∈ s ∨ ch ∈ acc := by
  induction s with
  | nil =>
    intro acc t ht ch hch
    unfold splitWsAux at ht
    split at ht
    · simp at ht
    · simp at ht
      subst ht
      right
      simpa using hch
  | cons c rest ih =>
    intro acc t ht ch hch
    unfold splitWsAux at ht
    split at ht
    · split at ht
      · rcases ih [] t ht ch hch with h | h
        · exact Or.inl (List.mem_cons_of_mem _ h)
        · simp at h
      · rcases List.mem_cons.mp ht with h | h
        · subst h
          right
          simpa using hch
        · rcases ih [] t h ch hch with h2 | h2
          · exact Or.inl (List.mem_cons_of_mem _ h2)
          · simp at h2
    · rcases ih (c :: acc) t ht ch hch with h | h
      · exact Or.inl (List.mem_cons_of_mem _ h)
      · rcases List.mem_cons.mp h with h2 | h2
        · exact Or.inl (h2 ▸ List.mem_cons_self _ _)
        · exact Or.inr h2

theorem map_id_of_pointwise (f : Nat → Nat) :
    ∀ t : Str, (∀ ch ∈ t, f ch = ch) → t.map f = t := by
  intro t
  induction t with
  | nil => simp
  | cons a t ih =>
    intro h
    simp only [List.map_cons, h a (List.mem_cons_self a t),
      ih (fun ch hch => h ch (List.mem_cons_of_mem a hch))]

theorem pyLower_fixed_of_mem_split (q t : Str) (ht : t ∈ pySplitWs (pyLower q)) :
    pyLower t = t := by
  unfold pyLower
  apply map_id_of_pointwise
  intro ch hch
  have hmem := mem_splitWsAux (pyLower q) [] t ht ch hch
  simp only [List.not_mem_nil, or_false] at hmem
  rcases List.mem_map.mp hmem with ⟨c0, _, hc0⟩
  rw [← hc0]
  exact pyLowerChar_idem c0

theorem foldl_add_eq_sum_map (f : Str → Nat) :
    ∀ (l : List Str) (n : Nat), l.foldl (fun a t => a + f t) n = n + (l.map f).sum := by
  intro l
  induction l with
  | nil => simp
  | cons t ts ih =>
    intro n
    simp only [List.foldl_cons, List.map_cons, List.sum_cons, ih]
    omega

theorem map_congr_mem (f g : Str → Nat) :
    ∀ l : List Str, (∀ x ∈ l, f x = g x) → l.map f = l.map g := by
  intro l
  induction l with
  | nil => simp
  | cons x xs ih =>
    intro h
    simp only [List.map_cons, h x (List.mem_cons_self x xs),
      ih (fun y hy => h y (List.mem_cons_of_mem x hy))]

theorem searchScore_eq_specScore (q c : Str) :
    searchScore (pySplitWs (pyLower q)) (pyLower c) = specScore q c := by
  unfold searchScore specScore
  rw [foldl_add_eq_sum_map]
  simp only [Nat.zero_add]
  congr 1
  apply map_congr_mem
  intro t htmem
  unfold ciOccCount
  rw [pyLower_fixed_of_mem_split q t htmem]

/-! ## Helper lemmas: separator splitting and joining -/

theorem splitSep_ne_nil (sep : Nat) (s : Str) : splitSep sep s ≠ [] := by
  induction s with
  | nil => simp [splitSep]
  | cons c rest ih =>
    unfold splitSep
    split
    · simp
    · split
      · simp
      · simp

theorem splitSep_no_sep (sep : Nat) (s : Str) (h : sep ∉ s) : splitSep sep s = [s] := by
  induction s with
  | nil => rfl
  | cons c rest ih =>
    simp only [List.mem_cons, not_or] at h
    have hc : ¬(c = sep) := fun e => h.1 e.symm
    unfold splitSep
    rw [if_neg hc, ih h.2]

theorem splitSep_append (sep : Nat) (r : Str) :
    ∀ a : Str, sep ∉ a → splitSep sep (a ++ sep :: r) = a :: splitSep sep r := by
  intro a
  induction a with
  | nil => simp [splitSep]
  | cons c a ih =>
    intro h
    simp only [List.mem_cons, not_or] at h
    have hc : ¬(c = sep) := fun e => h.1 e.symm
    have e1 : splitSep sep ((c :: a) ++ sep :: r) =
        match splitSep sep (a ++ sep :: r) with
        | [] => [[c]]
        | t :: ts => (c :: t) :: ts := by
      simp only [List.cons_append, splitSep]
      rw [if_neg hc]
      rfl
    rw [e1, ih h.2]

theorem splitSep_joinSep (sep : Nat) :
    ∀ ps : List Str, ps ≠ [] → (∀ t ∈ ps, sep ∉ t) →
      splitSep sep (joinSep sep ps) = ps := by
  intro ps
  induction ps with
  | nil => intro h; exact absurd rfl h
  | cons t ts ih =>
    intro _ hall
    cases ts with
    | nil => simpa [joinSep] using splitSep_no_sep sep t (hall t (by simp))
    | cons t2 ts2 =>
      have hj : joinSep sep (t :: t2 :: ts2) = t ++ sep :: joinSep sep (t2 :: ts2) := rfl
      rw [hj, splitSep_append sep _ t (hall t (by simp)),
        ih (by simp) (fun x hx => hall x (List.mem_cons_of_mem _ hx))]

theorem not_mem_of_mem_splitSep (sep : Nat) :
    ∀ s t : Str, t ∈ splitSep sep s → sep ∉ t := by
  intro s
  induction s with
  | nil =>
    intro t ht
    simp [splitSep] at ht
    subst ht
    simp
  | cons c rest ih =>
    intro t ht
    unfold splitSep at ht
    split at ht
    · rcases List.mem_cons.mp ht with h | h
      · subst h; simp
      · exact ih t h
    · rename_i hc
      rcases hsp : splitSep sep rest with _ | ⟨t1, ts⟩
      · exact absurd hsp (splitSep_ne_nil sep rest)
      · rw [hsp] at ht
        rcases List.mem_cons.mp ht with h | h
        · subst h
          intro hmem
          rcases List.mem_cons.mp hmem with e | e
          · exact hc e.symm
          · exact ih t1 (hsp ▸ List.mem_cons_self t1 ts) e
        · exact ih t (hsp ▸ List.mem_cons_of_mem t1 h)

theorem joinSep_splitSep (sep : Nat) : ∀ s : Str, joinSep sep (splitSep sep s) = s := by
  intro s
  induction s with
  | nil => rfl
  | cons c rest ih =>
    unfold splitSep
    split
    · rename_i hc
      rcases hsp : splitSep sep rest with _ | ⟨t, ts⟩
      · exact absurd hsp (splitSep_ne_nil sep rest)
      · have hj : joinSep sep ([] :: t :: ts) = [] ++ sep :: joinSep sep (t :: ts) := rfl
        rw [hsp] at ih
        rw [hj, ih]
        simp [hc]
    · rcases hsp : splitSep sep rest with _ | ⟨t, ts⟩
      · exact absurd hsp (splitSep_ne_nil sep rest)
      · rw [hsp] at ih
        show joinSep sep ((c :: t) :: ts) = c :: rest
        cases ts with
        | nil => simpa [joinSep] using congrArg (c :: ·) ih
        | cons t2 ts2 =>
          have hj : joinSep sep ((c :: t) :: t2 :: ts2) =
              (c :: t) ++ sep :: joinSep sep (t2 :: ts2) := rfl
          have hj2 : joinSep sep (t :: t2 :: ts2) =
              t ++ sep :: joinSep sep (t2 :: ts2) := rfl
          rw [hj]
          rw [hj2] at ih
          simpa using ih

theorem isPrefixOf_append_self (l r : Str) : l.isPrefixOf (l ++ r) = true := by
  induction l with
  | nil => simp [List.isPrefixOf]
  | cons a l ih => simp [List.isPrefixOf, ih]

theorem isPrefixOf_append_drop :
    ∀ l u : Str, l.isPrefixOf u = true → l ++ u.drop l.length = u := by
  intro l
  induction l with
  | nil => simp
  | cons a l ih =>
    intro u h
    cases u with
    | nil => simp [List.isPrefixOf] at h
    | cons b u =>
      simp only [List.isPrefixOf, Bool.and_eq_true, beq_iff_eq] at h
      obtain ⟨e, h2⟩ := h
      simp only [List.length_cons, List.drop_succ_cons, List.cons_append, e]
      exact congrArg (b :: ·) (ih u h2)

theorem noSlash_iff (s : Str) : noSlash s = true ↔ slash ∉ s := by
  simp [noSlash, List.contains]

/-! ## Helper lemmas: URI composition and resolution -/

theorem drop_append_self (l r : Str) : (l ++ r).drop l.length = r := by
  simp

theorem schemeTag_pre_mkUri (t : Str) (segs : List Str) :
    schemeTag.isPrefixOf (mkUri t segs) = true :=
  isPrefixOf_append_self _ _

theorem drop_mkUri (t : Str) (segs : List Str) :
    (mkUri t segs).drop schemeTag.length = joinSep slash (t :: segs) := by
  unfold mkUri
  exact drop_append_self _ _

theorem comps_mkUri (t : Str) (segs : List Str) (ht : noSlash t = true)
    (hs : segs.all noSlash = true) :
    splitSep slash ((mkUri t segs).drop schemeTag.length) = t :: segs := by
  rw [drop_mkUri, splitSep_joinSep]
  · simp
  · intro x hx
    rcases List.mem_cons.mp hx with e | hmem
    · subst e
      exact (noSlash_iff x).mp ht
    · exact (noSlash_iff x).mp (List.all_eq_true.mp hs x hmem)

theorem composeUri_project_mk (l p : Str) :
    composeUri (.project l p) = mkUri (strLit "project") [l, p] := by
  have hconst : strLit "mcp-docs://project/" = schemeTag ++ (strLit "project" ++ [slash]) := by
    decide
  have hjoin : joinSep slash [strLit "project", l, p] =
      (strLit "project" ++ [slash]) ++ (l ++ slash :: p) := by
    show strLit "project" ++ slash :: joinSep slash [l, p] = _
    simp [joinSep]
  simp [composeUri, mkUri, hconst, hjoin, List.append_assoc]

theorem composeUri_readme_mk (l p : Str) :
    composeUri (.readme l p) = mkUri (strLit "readme") [l, p] := by
  have hconst : strLit "mcp-docs://readme/" = schemeTag ++ (strLit "readme" ++ [slash]) := by
    decide
  have hjoin : joinSep slash [strLit "readme", l, p] =
      (strLit "readme" ++ [slash]) ++ (l ++ slash :: p) := by
    show strLit "readme" ++ slash :: joinSep slash [l, p] = _
    simp [joinSep]
  simp [composeUri, mkUri, hconst, hjoin, List.append_assoc]

theorem composeUri_module_mk (l p m : Str) :
    composeUri (.module l p m) = mkUri (strLit "module") [l, p, m] := by
  have hconst : strLit "mcp-docs://module/" = schemeTag ++ (strLit "module" ++ [slash]) := by
    decide
  have hjoin : joinSep slash [strLit "module", l, p, m] =
      (strLit "module" ++ [slash]) ++ (l ++ slash :: p ++ slash :: m) := by
    show strLit "module" ++ slash :: joinSep slash [l, p, m] = _
    simp [joinSep]
  simp [composeUri, mkUri, hconst, hjoin, List.append_assoc]

/-! ## Claims C2 and C3: URI resolution and composition -/

/-- C2 (counterexample): the claim says a URI with the wrong segment count
for its type fails with `InvalidParams` (`-32602`) and that extra segments
are rejected. On the code, `mcp-docs://module/java/x` (two segments) raises
`IndexError`, which the dispatcher maps to `-32000`, not `-32602`; and
`mcp-docs://project/java/x/y` (three segments) resolves successfully with
the extra segment ignored. -/
theorem c2_segment_count_counterexample :
    resolveUri (strLit "mcp-docs://module/java/x") = .exc .indexError ∧
    pyErrCode .indexError = -32000 ∧
    pyErrCode .indexError ≠ -32602 ∧
    resolveUri (strLit "mcp-docs://project/java/x/y") =
      .ok (.project (strLit "java") (strLit "x")) := by
  decide

/-- C2 (amended): for separator-free segments, a URI with too few segments
for its type tag (fewer than 2 for `project`/`readme`, fewer than 3 for
`module`) fails, but with an `IndexError` that the dispatcher reports as
`InternalError` `-32000` rather than `InvalidParams` `-32602`; a URI with
extra segments is accepted, the extra segments being ignored. -/
theorem c2_segment_count_amended (a b c : Str) (extra : List Str)
    (ha : noSlash a = true) (hb : noSlash b = true) (hc : noSlash c = true)
    (hx : extra.all noSlash = true) :
    resolveUri (mkUri (strLit "project") []) = .exc .indexError ∧
    resolveUri (mkUri (strLit "project") [a]) = .exc .indexError ∧
    resolveUri (mkUri (strLit "readme") [a]) = .exc .indexError ∧
    resolveUri (mkUri (strLit "module") [a, b]) = .exc .indexError ∧
    resolveUri (mkUri (strLit "project") (a :: b :: extra)) = .ok (.project a b) ∧
    resolveUri (mkUri (strLit "readme") (a :: b :: extra)) = .ok (.readme a b) ∧
    resolveUri (mkUri (strLit "module") (a :: b :: c :: extra)) = .ok (.module a b c) ∧
    pyErrCode .indexError = -32000 ∧
    pyErrCode .indexError ≠ -32602 := by
  have hneRP : ¬(strLit "readme" = strLit "project") := by decide
  have hneMP : ¬(strLit "module" = strLit "project") := by decide
  have hneMR : ¬(strLit "module" = strLit "readme") := by decide
  refine ⟨?_, ?_, ?_, ?_, ?_, ?_, ?_, by decide, by decide⟩
  · have h := comps_mkUri (strLit "project") [] (by decide) (by simp)
    simp [resolveUri, schemeTag_pre_mkUri, h, pyIndex]
  · have h := comps_mkUri (strLit "project") [a] (by decide) (by simp [ha])
    simp [resolveUri, schemeTag_pre_mkUri, h, pyIndex]
  · have h := comps_mkUri (strLit "readme") [a] (by decide) (by simp [ha])
    simp [resolveUri, schemeTag_pre_mkUri, h, pyIndex, hneRP]
  · have h := comps_mkUri (strLit "module") [a, b] (by decide) (by simp [ha, hb])
    simp [resolveUri, schemeTag_pre_mkUri, h, pyIndex, hneMP, hneMR]
  · have h := comps_mkUri (strLit "project") (a :: b :: extra) (by decide)
      (by simp [ha, hb, hx])
    simp [resolveUri, schemeTag_pre_mkUri, h, pyIndex]
  · have h := comps_mkUri (strLit "readme") (a :: b :: extra) (by decide)
      (by simp [ha, hb, hx])
    simp [resolveUri, schemeTag_pre_mkUri, h, pyIndex, hneRP]
  · have h := comps_mkUri (strLit "module") (a :: b :: c :: extra) (by decide)
      (by simp [ha, hb, hc, hx])
    simp [resolveUri, schemeTag_pre_mkUri, h, pyIndex, hneMP, hneMR]

/-- C2 (witness): the amended theorem applied at concrete segments. -/
theorem c2_segment_count_witness :
    resolveUri (mkUri (strLit "module") [strLit "java", strLit "x"]) = .exc .indexError :=
  (c2_segment_count_amended (strLit "java") (strLit "x") (strLit "y") []
    (by decide) (by decide) (by decide) (by decide)).2.2.2.1

/-- C3: URI composition and resolution are inverses: resolving the URI
composed from any locator with separator-free components yields the locator
back, and composing the locator resolved from any syntactically valid
(normalized) URI yields the URI itself. -/
theorem c3_uri_roundtrip (L : RLoc) (u : Str) (hL : locOk L = true)
    (hu : validUri u = true) :
    resolveUri (composeUri L) = .ok L ∧ recomposeUri u = .ok u := by
  constructor
  · have hneRP : ¬(strLit "readme" = strLit "project") := by decide
    have hneMP : ¬(strLit "module" = strLit "project") := by decide
    have hneMR : ¬(strLit "module" = strLit "readme") := by decide
    cases L with
    | project l p =>
      simp only [locOk, Bool.and_eq_true] at hL
      rw [composeUri_project_mk]
      have h := comps_mkUri (strLit "project") [l, p] (by decide) (by simp [hL.1, hL.2])
      simp [resolveUri, schemeTag_pre_mkUri, h, pyIndex]
    | readme l p =>
      simp only [locOk, Bool.and_eq_true] at hL
      rw [composeUri_readme_mk]
      have h := comps_mkUri (strLit "readme") [l, p] (by decide) (by simp [hL.1, hL.2])
      simp [resolveUri, schemeTag_pre_mkUri, h, pyIndex, hneRP]
    | module l p m =>
      simp only [locOk, Bool.and_eq_true] at hL
      rw [composeUri_module_mk]
      have h := comps_mkUri (strLit "module") [l, p, m] (by decide)
        (by simp [hL.1.1, hL.1.2, hL.2])
      simp [resolveUri, schemeTag_pre_mkUri, h, pyIndex, hneMP, hneMR]
  · simp only [validUri, Bool.and_eq_true] at hu
    obtain ⟨hu1, hu2⟩ := hu
    have hsplit : schemeTag ++ (u.drop schemeTag.length) = u := isPrefixOf_append_drop _ _ hu1
    have hjoin := joinSep_splitSep slash (u.drop schemeTag.length)
    split at hu2
    · rename_i t x y heq
      rw [heq] at hjoin
      simp only [Bool.or_eq_true, beq_iff_eq] at hu2
      rcases hu2 with ht | ht <;> subst ht
      · have hres : resolveUri u = .ok (.project x y) := by
          simp [resolveUri, hu1, heq, pyIndex]
        simp only [recomposeUri, hres, PyResult.map, composeUri_project_mk]
        rw [mkUri, hjoin, hsplit]
      · have hne : ¬(strLit "readme" = strLit "project") := by decide
        have hres : resolveUri u = .ok (.readme x y) := by
          simp [resolveUri, hu1, heq, pyIndex, hne]
        simp only [recomposeUri, hres, PyResult.map, composeUri_readme_mk]
        rw [mkUri, hjoin, hsplit]
    · rename_i t x y z heq
      rw [heq] at hjoin
      simp only [beq_iff_eq] at hu2
      subst hu2
      have hne1 : ¬(strLit "module" = strLit "project") := by decide
      have hne2 : ¬(strLit "module" = strLit "readme") := by decide
      have hres : resolveUri u = .ok (.module x y z) := by
        simp [resolveUri, hu1, heq, pyIndex, hne1, hne2]
      simp only [recomposeUri, hres, PyResult.map, composeUri_module_mk]
      rw [mkUri, hjoin, hsplit]
    · simp at hu2

/-- C3 (witness): the round trip at a concrete locator and a concrete URI. -/
theorem c3_uri_roundtrip_witness :
    resolveUri (composeUri (.project (strLit "java") (strLit "demo"))) =
      .ok (.project (strLit "java") (strLit "demo")) ∧
    recomposeUri (strLit "mcp-docs://module/java/demo/core") =
      .ok (strLit "mcp-docs://module/java/demo/core") :=
  c3_uri_roundtrip (.project (strLit "java") (strLit "demo"))
    (strLit "mcp-docs://module/java/demo/core") (by decide) (by decide)

/-! ## Helper lemmas: dispatcher -/

set_option maxHeartbeats 1600000 in
theorem respRid_eq (o : ServiceOracle) (st : Session) (req : RpcRequest) :
    ((handleJsonRpc o st req).2).rid = req.rid := by
  unfold handleJsonRpc
  repeat' split
  all_goals rfl

set_option maxHeartbeats 1600000 in
theorem respExclusive (o : ServiceOracle) (st : Session) (req : RpcRequest) :
    (((handleJsonRpc o st req).2).result.isSome ∧ ((handleJsonRpc o st req).2).error = none) ∨
    (((handleJsonRpc o st req).2).result = none ∧ ((handleJsonRpc o st req).2).error.isSome) := by
  unfold handleJsonRpc
  repeat' split
  all_goals simp [errResp, okResp]

theorem respStIndep (o : ServiceOracle) (st1 st2 : Session) (req : RpcRequest) :
    (handleJsonRpc o st1 req).2 = (handleJsonRpc o st2 req).2 := by
  unfold handleJsonRpc
  by_cases h0 : req.rpcOk = false
  · simp only [if_pos h0]
  · simp only [if_neg h0]
    cases hm : req.method with
    | none => rfl
    | some m =>
      by_cases h1 : m = strLit "initialize"
      · simp only [if_pos h1]
      · simp only [if_neg h1]
        by_cases h2 : m = strLit "listTools"
        · simp only [if_pos h2]
        · simp only [if_neg h2]
          by_cases h3 : m = strLit "tools/list"
          · simp only [if_pos h3]
          · simp only [if_neg h3]
            by_cases h4 : m = strLit "listResources"
            · simp only [if_pos h4]
            · simp only [if_neg h4]
              by_cases h5 : m = strLit "resources/list"
              · simp only [if_pos h5]
              · simp only [if_neg h5]
                by_cases h6 : m = strLit "readResource" ∨ m = strLit "resources/read"
                · simp only [if_pos h6]
                  cases hu : req.params.uri with
                  | none => rfl
                  | some u =>
                    by_cases hu0 : u = []
                    · simp only [if_pos hu0]
                    · simp only [if_neg hu0]
                      cases hr : readResourceViaService o u <;> rfl
                · simp only [if_neg h6]
                  by_cases h7 : m = strLit "callTool"
                  · simp only [if_pos h7]
                    cases hn : req.params.name with
                    | none => rfl
                    | some n =>
                      by_cases hn0 : n = []
                      · simp only [if_pos hn0]
                      · simp only [if_neg hn0]
                        cases ht : o.execTool n <;> rfl
                  · simp only [if_neg h7]
                    by_cases h8 : m = strLit "prompts/list"
                    · simp only [if_pos h8]
                    · simp only [if_neg h8]
                      by_cases h9 : m = strLit "notifications/initialized"
                      · simp only [if_pos h9]
                      · simp only [if_neg h9]

theorem processBatch_length (o : ServiceOracle) (reqs : List RpcRequest) :
    ∀ st, (processBatch o st reqs).2.length = reqs.length := by
  induction reqs with
  | nil => intro st; rfl
  | cons r rs ih => intro st; simp [processBatch, ih]

theorem processBatch_getD (o : ServiceOracle) (reqs : List RpcRequest) :
    ∀ st i, i < reqs.length →
      (processBatch o st reqs).2.getD i dResp = (handleJsonRpc o st (reqs.getD i dReq)).2 := by
  induction reqs with
  | nil => intro st i h; simp at h
  | cons r rs ih =>
    intro st i h
    cases i with
    | zero => rfl
    | succ n =>
      have hn : n < rs.length := by simpa using h
      have step : (processBatch o st (r :: rs)).2 =
          (handleJsonRpc o st r).2 :: (processBatch o (handleJsonRpc o st r).1 rs).2 := rfl
      rw [step, List.getD_cons_succ, List.getD_cons_succ,
        ih (handleJsonRpc o st r).1 n hn]
      exact respStIndep o (handleJsonRpc o st r).1 st (rs.getD n dReq)

/-! ## Claims C1 and C7: dispatcher envelopes and batching -/

/-- C1: for every batched request the response list has the same length,
each position is the dispatcher's envelope for the corresponding request at
the incoming session state (so an element's outcome never affects its
siblings), and for the batch `[initialize, bogus]` the second envelope
carries error code `-32601`, whatever the oracle and session. -/
theorem c1_batch_processing (o : ServiceOracle) (st : Session)
    (reqs : List RpcRequest) (i : Nat) (hi : i < reqs.length) :
    (processBatch o st reqs).2.length = reqs.length ∧
    (processBatch o st reqs).2.getD i dResp = (handleJsonRpc o st (reqs.getD i dReq)).2 ∧
    ((processBatch o st [initExample, bogusExample]).2.getD 1 dResp).error =
      some ⟨-32601, strLit "Method not found: " ++ strLit "bogus"⟩ ∧
    (processBatch o st [initExample, bogusExample]).2.length = 2 := by
  refine ⟨processBatch_length o reqs st, processBatch_getD o reqs st i hi, ?_, ?_⟩
  · rfl
  · rfl

/-- C1 (witness): the batch theorem applied to the two-element example
batch at a concrete oracle and session. -/
theorem c1_batch_processing_witness :
    1 < ([initExample, bogusExample] : List RpcRequest).length ∧
    (processBatch ⟨fun _ => .exc .indexError, fun _ => .exc (.otherError [])⟩
        ⟨false, none⟩ [initExample, bogusExample]).2.length = 2 :=
  ⟨by decide,
   (c1_batch_processing ⟨fun _ => .exc .indexError, fun _ => .exc (.otherError [])⟩
      ⟨false, none⟩ [initExample, bogusExample] 1 (by decide)).2.2.2⟩

/-- C7: every response envelope the dispatcher produces carries exactly one
of `result` and `error` — never both, never neither — and echoes the
request's `id`, for every method, session state and handler outcome
(the oracle ranges over all service behaviours, failures included). -/
theorem c7_envelope_exclusive (o : ServiceOracle) (st : Session) (req : RpcRequest) :
    ((((handleJsonRpc o st req).2).result.isSome ∧ ((handleJsonRpc o st req).2).error = none) ∨
     (((handleJsonRpc o st req).2).result = none ∧ ((handleJsonRpc o st req).2).error.isSome)) ∧
    ((handleJsonRpc o st req).2).rid = req.rid :=
  ⟨respExclusive o st req, respRid_eq o st req⟩

/-! ## Helper lemmas: search ranking -/

theorem insertHit_perm (x : Hit) : ∀ l, (insertHit x l).Perm (x :: l) := by
  intro l
  induction l with
  | nil => exact List.Perm.refl _
  | cons y ys ih =>
    unfold insertHit
    split
    · exact (List.Perm.cons y ih).trans (List.Perm.swap x y ys)
    · exact List.Perm.refl _

theorem sortDesc_perm : ∀ l, (sortDesc l).Perm l := by
  intro l
  induction l with
  | nil => exact List.Perm.refl _
  | cons x xs ih => exact (insertHit_perm x (sortDesc xs)).trans (List.Perm.cons x ih)

theorem insertHit_pairwise (x : Hit) :
    ∀ l, l.Pairwise (fun a b => b.score ≤ a.score) →
      (insertHit x l).Pairwise (fun a b => b.score ≤ a.score) := by
  intro l
  induction l with
  | nil => simp [insertHit]
  | cons y ys ih =>
    intro hp
    rcases List.pairwise_cons.mp hp with ⟨hy, hys⟩
    unfold insertHit
    split
    · rename_i hlt
      refine List.pairwise_cons.mpr ⟨?_, ih hys⟩
      intro z hz
      rcases List.mem_cons.mp ((insertHit_perm x ys).mem_iff.mp hz) with e | hmem
      · subst e; omega
      · exact hy z hmem
    · rename_i hge
      refine List.pairwise_cons.mpr ⟨?_, hp⟩
      intro z hz
      rcases List.mem_cons.mp hz with e | hmem
      · subst e; omega
      · have := hy z hmem; omega

theorem sortDesc_pairwise : ∀ l, (sortDesc l).Pairwise (fun a b => b.score ≤ a.score) := by
  intro l
  induction l with
  | nil => simp [sortDesc]
  | cons x xs ih => exact insertHit_pairwise x (sortDesc xs) ih

theorem insertHit_filter_stable (x : Hit) (s : Nat) :
    ∀ l, l.Pairwise (fun a b => b.score ≤ a.score) →
      (insertHit x l).filter (fun h => h.score == s) =
        (if x.score == s then x :: l.filter (fun h => h.score == s)
         else l.filter (fun h => h.score == s)) := by
  intro l
  induction l with
  | nil =>
    intro _
    by_cases h : x.score = s
    · simp [insertHit, List.filter, h]
    · have hf : (x.score == s) = false := by simp [h]
      simp [insertHit, List.filter, h, hf]
  | cons y ys ih =>
    intro hp
    rcases List.pairwise_cons.mp hp with ⟨hy, hys⟩
    unfold insertHit
    split
    · rename_i hlt
      rw [List.filter_cons]
      by_cases hxs : x.score = s
      · have hys2 : (y.score == s) = false := by
          simp only [beq_eq_false_iff_ne, ne_eq]
          omega
        rw [ih hys]
        simp only [hys2, hxs, beq_self_eq_true, if_true, Bool.false_eq_true, if_false]
        rw [List.filter_cons]
        simp [hys2]
      · have hxf : (x.score == s) = false := by simp [hxs]
        rw [ih hys]
        simp only [hxf, Bool.false_eq_true, if_false]
        rw [List.filter_cons]
    · rw [List.filter_cons]

theorem sortDesc_filter_stable (s : Nat) :
    ∀ l, (sortDesc l).filter (fun h => h.score == s) = l.filter (fun h => h.score == s) := by
  intro l
  induction l with
  | nil => rfl
  | cons x xs ih =>
    have hstep : sortDesc (x :: xs) = insertHit x (sortDesc xs) := rfl
    rw [hstep, insertHit_filter_stable x s (sortDesc xs) (sortDesc_pairwise xs),
      List.filter_cons]
    by_cases h : x.score = s
    · simp [h, ih]
    · simp [h, ih]

theorem mem_collectHits_pos (cfg : List LangDir) (query : Str) (lf pf : Option Str)
    (h : Hit) (hmem : h ∈ collectHits cfg query lf pf) : 0 < h.score := by
  unfold collectHits at hmem
  simp only [List.mem_flatten, List.mem_map, List.mem_filter] at hmem
  obtain ⟨outer, ⟨lc, hlc, rfl⟩, hmem2⟩ := hmem
  simp only [List.mem_flatten, List.mem_map, List.mem_filter] at hmem2
  obtain ⟨inner, ⟨pd, hpd, rfl⟩, hmem3⟩ := hmem2
  rcases List.mem_filterMap.mp hmem3 with ⟨f, hf, hfe⟩
  split at hfe
  · rename_i hpos
    cases hfe
    simpa using hpos
  · simp at hfe

theorem collectHits_nil_of_zero (cfg : List LangDir) (query : Str) (lf pf : Option Str)
    (hz : ∀ lc ∈ cfg, ∀ pd ∈ lc.projects, ∀ f ∈ pd.files, specScore query f.content = 0) :
    collectHits cfg query lf pf = [] := by
  unfold collectHits
  simp only [List.flatten_eq_nil_iff, List.mem_map, List.mem_filter]
  rintro l ⟨lc, ⟨hlc, -⟩, rfl⟩
  simp only [List.flatten_eq_nil_iff, List.mem_map, List.mem_filter]
  rintro l2 ⟨pd, ⟨hpd, -⟩, rfl⟩
  simp only [List.filterMap_eq_nil_iff]
  intro f hf
  have hzf := hz lc hlc pd hpd f hf
  simp [searchScore_eq_specScore, hzf]

/-! ## Claims C4 and C8: search scoring and ranking -/

/-- C4: each file's score is the sum over the whitespace-split
lowercase-normalized query terms of the case-insensitive occurrence count of
the term in the content (duplicates counted multiple times); zero-score
files are excluded from the results entirely; and when the terms occur in no
file in scope, the search reports `total == 0` and an empty result list. -/
theorem c4_search_scoring (cfg : List LangDir) (query : Str) (lf pf : Option Str) :
    (∀ content : Str,
        searchScore (pySplitWs (pyLower query)) (pyLower content) = specScore query content) ∧
    (∀ h : Hit, h ∈ (searchDocumentation cfg query lf pf).results → 0 < h.score) ∧
    ((∀ lc ∈ cfg, ∀ pd ∈ lc.projects, ∀ f ∈ pd.files, specScore query f.content = 0) →
      (searchDocumentation cfg query lf pf).total = 0 ∧
      (searchDocumentation cfg query lf pf).results = []) := by
  refine ⟨fun content => searchScore_eq_specScore query content, ?_, ?_⟩
  · intro h hm
    have hm2 : h ∈ sortDesc (collectHits cfg query lf pf) := List.mem_of_mem_take hm
    have hm3 : h ∈ collectHits cfg query lf pf := (sortDesc_perm _).mem_iff.mp hm2
    exact mem_collectHits_pos cfg query lf pf h hm3
  · intro hz
    have hnil := collectHits_nil_of_zero cfg query lf pf hz
    constructor
    · show (sortDesc (collectHits cfg query lf pf)).length = 0
      rw [hnil]
      rfl
    · show (sortDesc (collectHits cfg query lf pf)).take maxSearchResults = []
      rw [hnil]
      rfl

/-- C4 (witness): the scoring theorem applied to a one-file corpus: a
matching query yields a positive-score hit; a query absent from the file
yields `total = 0` and no results. -/
theorem c4_search_scoring_witness :
    ((⟨strLit "java", strLit "demo", strLit "README.md", 2,
        strLit "the cache cache layer..."⟩ : Hit) ∈
      (searchDocumentation
        [⟨strLit "java", true,
          [⟨strLit "demo", [⟨strLit "README.md", strLit "The Cache cache layer"⟩]⟩]⟩]
        (strLit "cache") none none).results) ∧
    (0 < (2 : Nat)) ∧
    (∀ lc ∈ [(⟨strLit "java", true,
        [⟨strLit "demo", [⟨strLit "README.md", strLit "nothing here"⟩]⟩]⟩ : LangDir)],
      ∀ pd ∈ lc.projects, ∀ f ∈ pd.files, specScore (strLit "zzz") f.content = 0) ∧
    ((searchDocumentation
        [⟨strLit "java", true,
          [⟨strLit "demo", [⟨strLit "README.md", strLit "nothing here"⟩]⟩]⟩]
        (strLit "zzz") none none).total = 0 ∧
     (searchDocumentation
        [⟨strLit "java", true,
          [⟨strLit "demo", [⟨strLit "README.md", strLit "nothing here"⟩]⟩]⟩]
        (strLit "zzz") none none).results = []) :=
  ⟨by decide,
   (c4_search_scoring
      [⟨strLit "java", true,
        [⟨strLit "demo", [⟨strLit "README.md", strLit "The Cache cache layer"⟩]⟩]⟩]
      (strLit "cache") none none).2.1
      ⟨strLit "java", strLit "demo", strLit "README.md", 2, strLit "the cache cache layer..."⟩
      (by decide),
   by decide,
   (c4_search_scoring
      [⟨strLit "java", true,
        [⟨strLit "demo", [⟨strLit "README.md", strLit "nothing here"⟩]⟩]⟩]
      (strLit "zzz") none none).2.2 (by decide)⟩

/-- C8: the returned result list is the full hit list stably sorted by
score descending (ties keep traversal order) and truncated to the fixed cap
of 20 entries (inside the 20-50 range), while `total_results` reports the
pre-truncation hit count. -/
theorem c8_search_ranking (cfg : List LangDir) (query : Str) (lf pf : Option Str) :
    (searchDocumentation cfg query lf pf).total = (collectHits cfg query lf pf).length ∧
    (searchDocumentation cfg query lf pf).results =
      (sortDesc (collectHits cfg query lf pf)).take maxSearchResults ∧
    (sortDesc (collectHits cfg query lf pf)).Perm (collectHits cfg query lf pf) ∧
    (sortDesc (collectHits cfg query lf pf)).Pairwise (fun a b => b.score ≤ a.score) ∧
    (∀ s : Nat, (sortDesc (collectHits cfg query lf pf)).filter (fun h => h.score == s) =
      (collectHits cfg query lf pf).filter (fun h => h.score == s)) ∧
    20 ≤ maxSearchResults ∧ maxSearchResults ≤ 50 :=
  ⟨(sortDesc_perm (collectHits cfg query lf pf)).length_eq, rfl,
   sortDesc_perm _, sortDesc_pairwise _, fun s => sortDesc_filter_stable s _,
   by decide, by decide⟩

/-! ## Helper lemmas: quality rubric -/

theorem readmeRule_points (p : ProjectFS) :
    (readmeRule p).points = 3 ∨ (readmeRule p).points = 0 := by
  unfold readmeRule
  split <;> simp

theorem apiRule_points (p : ProjectFS) :
    (apiRule p).points = 0 ∨ (apiRule p).points = 2 := by
  unfold apiRule
  split <;> simp

theorem docFilesRule_points (p : ProjectFS) :
    (docFilesRule p).points = 2 ∨ (docFilesRule p).points = 1 ∨
      (docFilesRule p).points = 0 := by
  unfold docFilesRule
  split
  · simp
  · split <;> simp

theorem codeFilesRule_points (p : ProjectFS) :
    (codeFilesRule p).points = 0 ∨ (codeFilesRule p).points = 1 := by
  unfold codeFilesRule
  split <;> simp

theorem layoutRule_points (p : ProjectFS) :
    (layoutRule p).points = 2 ∨ (layoutRule p).points = 1 := by
  unfold layoutRule
  split <;> simp

theorem checkDocumentationQuality_props (p : ProjectFS) :
    (checkDocumentationQuality p).score =
      ((checkDocumentationQuality p).checks.map Check.points).sum ∧
    0 ≤ (checkDocumentationQuality p).score ∧
    (checkDocumentationQuality p).score ≤ (checkDocumentationQuality p).maxScore ∧
    (checkDocumentationQuality p).maxScore = 10 ∧
    (checkDocumentationQuality p).checks.map Check.ctype =
      [strLit "readme", strLit "api_documentation", strLit "documentation_files",
       strLit "code_files", strLit "project_structure"] ∧
    1 ≤ (checkDocumentationQuality p).score ∧
    (checkDocumentationQuality p).found = true := by
  have h1 := readmeRule_points p
  have h2 := apiRule_points p
  have h3 := docFilesRule_points p
  have h4 := codeFilesRule_points p
  have h5 := layoutRule_points p
  have hc1 : (readmeRule p).ctype = strLit "readme" := by
    unfold readmeRule; split <;> rfl
  have hc2 : (apiRule p).ctype = strLit "api_documentation" := by
    unfold apiRule; split <;> rfl
  have hc3 : (docFilesRule p).ctype = strLit "documentation_files" := by
    unfold docFilesRule; split
    · rfl
    · split <;> rfl
  have hc4 : (codeFilesRule p).ctype = strLit "code_files" := by
    unfold codeFilesRule; split <;> rfl
  have hc5 : (layoutRule p).ctype = strLit "project_structure" := by
    unfold layoutRule; split <;> rfl
  unfold checkDocumentationQuality
  simp only [List.map_cons, List.map_nil, List.sum_cons, List.sum_nil, hc1, hc2, hc3, hc4, hc5]
  refine ⟨by ring, ?_, ?_, trivial, trivial, ?_, trivial⟩ <;> rcases h1 with h1 | h1 <;>
    rcases h2 with h2 | h2 <;> rcases h3 with h3 | h3 | h3 <;> rcases h4 with h4 | h4 <;>
    rcases h5 with h5 | h5 <;> rw [h1, h2, h3, h4, h5] <;> norm_num

theorem qualityTool_found (entries : List RootEntry) (language projectName : Str)
    (hf : (qualityTool entries language projectName).found = true) :
    ∃ p, qualityTool entries language projectName = checkDocumentationQuality p := by
  unfold qualityTool at hf ⊢
  cases hfind : findProjectFS entries language projectName with
  | some p => exact ⟨p, rfl⟩
  | none =>
    rw [hfind] at hf
    simp at hf

/-! ## Claims C5, C6, C9 and C10: quality rubric and doc creation -/

/-- C5: for every project the quality check finds, the reported score is the
sum of the points of the emitted checks, lies between 0 and the declared
`max_score` of 10, and the checks appear in the fixed rubric order (README,
API doc, doc file count, source files, layout), one record per rule. -/
theorem c5_quality_report (entries : List RootEntry) (language projectName : Str)
    (hf : (qualityTool entries language projectName).found = true) :
    (qualityTool entries language projectName).score =
      ((qualityTool entries language projectName).checks.map Check.points).sum ∧
    0 ≤ (qualityTool entries language projectName).score ∧
    (qualityTool entries language projectName).score ≤
      (qualityTool entries language projectName).maxScore ∧
    (qualityTool entries language projectName).maxScore = 10 ∧
    (qualityTool entries language projectName).checks.map Check.ctype =
      [strLit "readme", strLit "api_documentation", strLit "documentation_files",
       strLit "code_files", strLit "project_structure"] := by
  obtain ⟨p, hp⟩ := qualityTool_found entries language projectName hf
  rw [hp]
  have h := checkDocumentationQuality_props p
  exact ⟨h.1, h.2.1, h.2.2.1, h.2.2.2.1, h.2.2.2.2.1⟩

/-- C5 (witness): the rubric theorem applied to a found one-project tree. -/
theorem c5_quality_report_witness :
    (qualityTool [⟨strLit "Java", true, [(strLit "demo", ⟨[strLit "README.md"], []⟩)]⟩]
        (strLit "Java") (strLit "demo")).found = true ∧
    (qualityTool [⟨strLit "Java", true, [(strLit "demo", ⟨[strLit "README.md"], []⟩)]⟩]
        (strLit "Java") (strLit "demo")).maxScore = 10 :=
  ⟨by decide,
   (c5_quality_report [⟨strLit "Java", true, [(strLit "demo", ⟨[strLit "README.md"], []⟩)]⟩]
      (strLit "Java") (strLit "demo") (by decide)).2.2.2.1⟩

/-- C6: the API-doc rule awards its 2 points exactly when the project
directory contains some entry whose name matches `*api*.md`
case-insensitively (so `Api.md` or `API-guide.MD` in any casing qualify),
and 0 otherwise: the rubric runs under the hard-coded Windows root, where
`pathlib` glob matches case-insensitively, so both globs reduce to the
case-insensitive `*api*.md` test. -/
theorem c6_api_rule_case_insensitive (p : ProjectFS) :
    ((apiRule p).points = 2 ↔ ∃ n ∈ p.top, ciApiMatch n = true) ∧
    ((apiRule p).points = 0 ∨ (apiRule p).points = 2) := by
  have hP1 : ∀ n : Str, winGlobMidSuf (strLit "api") (strLit ".md") n = ciApiMatch n := by
    intro n
    unfold winGlobMidSuf ciApiMatch
    rw [show pyLower (strLit "api") = strLit "api" from by decide,
      show pyLower (strLit ".md") = strLit ".md" from by decide]
  have hP2 : ∀ n : Str, winGlobMidSuf (strLit "API") (strLit ".md") n = ciApiMatch n := by
    intro n
    unfold winGlobMidSuf ciApiMatch
    rw [show pyLower (strLit "API") = strLit "api" from by decide,
      show pyLower (strLit ".md") = strLit ".md" from by decide]
  have hmem : apiDocs p ≠ [] ↔ ∃ n ∈ p.top, ciApiMatch n = true := by
    unfold apiDocs
    constructor
    · intro hne
      rcases List.exists_mem_of_ne_nil _ hne with ⟨x, hx⟩
      rcases List.mem_append.mp hx with hx1 | hx1 <;>
        rcases List.mem_filter.mp hx1 with ⟨hxt, hxg⟩
      · exact ⟨x, hxt, by rw [← hP1 x]; exact hxg⟩
      · exact ⟨x, hxt, by rw [← hP2 x]; exact hxg⟩
    · rintro ⟨n, hn, hg⟩ hnil
      rcases List.append_eq_nil.mp hnil with ⟨h1, -⟩
      have : n ∈ ([] : List Str) :=
        h1 ▸ List.mem_filter.mpr ⟨hn, by rw [hP1 n]; exact hg⟩
      simp at this
  constructor
  · unfold apiRule
    split
    · rename_i hnil
      exact ⟨fun h02 => absurd h02 (by decide), fun hex => absurd hnil (by
        simpa using hmem.mpr hex)⟩
    · rename_i hne
      exact ⟨fun _ => hmem.mp hne, fun _ => rfl⟩
  · unfold apiRule
    split <;> simp

/-- C9: whenever the MCP root, the language directory or the project
directory is missing, or the write fails, `create_documentation` returns
normally (no exception escapes) with `created: false` and a non-empty
message. -/
theorem c9_create_documentation (rootExists : Bool) (entries : List RootEntry)
    (language projectName : Str) (writeOutcome : PyResult Unit) :
    isOkResult (createDocumentation rootExists entries language projectName writeOutcome) =
      true ∧
    ((rootExists = false ∨
      entries.all (fun e => !(e.isDir && e.ename == language &&
        (e.projects.map (fun q => q.1)).contains projectName)) = true ∨
      (∃ emsg, writeOutcome = .exc emsg)) →
     createdOf (createDocumentation rootExists entries language projectName writeOutcome) =
       some false ∧
     msgEmptyOf (createDocumentation rootExists entries language projectName writeOutcome) =
       some false) := by
  unfold createDocumentation
  by_cases hroot : rootExists
  · simp only [hroot, if_true]
    cases hfind : entries.find? (fun e => e.isDir && e.ename == language &&
        (e.projects.map (fun q => q.1)).contains projectName) with
    | some e =>
      cases writeOutcome with
      | ok u =>
        refine ⟨rfl, ?_⟩
        rintro (hr | hall | ⟨emsg, hw⟩)
        · simp [hroot] at hr
        · have hp := List.find?_some hfind
          have hm := List.mem_of_find?_eq_some hfind
          have hcontra := List.all_eq_true.mp hall e hm
          rw [hp] at hcontra
          cases hcontra
        · cases hw
      | exc eerr =>
        exact ⟨rfl, fun _ => ⟨rfl, rfl⟩⟩
    | none =>
      exact ⟨rfl, fun _ => ⟨rfl, rfl⟩⟩
  · have hroot2 : rootExists = false := by simpa using hroot
    simp only [hroot2, Bool.false_eq_true, if_false]
    exact ⟨rfl, fun _ => ⟨rfl, rfl⟩⟩

/-- C9 (witness): the creation theorem applied where no language directory
exists: the tool reports `created: false` with a non-empty message. -/
theorem c9_create_documentation_witness :
    (([] : List RootEntry).all (fun e => !(e.isDir && e.ename == strLit "Java" &&
        (e.projects.map (fun q => q.1)).contains (strLit "demo"))) = true) ∧
    createdOf (createDocumentation true [] (strLit "Java") (strLit "demo") (.ok ())) =
      some false ∧
    msgEmptyOf (createDocumentation true [] (strLit "Java") (strLit "demo") (.ok ())) =
      some false :=
  ⟨by decide,
   (c9_create_documentation true [] (strLit "Java") (strLit "demo") (.ok ())).2
     (Or.inr (Or.inl (by decide)))⟩

/-- C10 (implicit): every project the quality check finds scores at least 1,
because the layout rule awards at least 1 point to a found project — a
reported score of 0 is unreachable. -/
theorem c10_found_score_min (entries : List RootEntry) (language projectName : Str)
    (hf : (qualityTool entries language projectName).found = true) :
    1 ≤ (qualityTool entries language projectName).score := by
  obtain ⟨p, hp⟩ := qualityTool_found entries language projectName hf
  rw [hp]
  exact (checkDocumentationQuality_props p).2.2.2.2.2.1

/-- C10 (witness): the minimum-score theorem at a found project with no
README, no markdown files, no source files and no conventional layout. -/
theorem c10_found_score_min_witness :
    (qualityTool [⟨strLit "Java", true, [(strLit "bare", ⟨[], []⟩)]⟩]
        (strLit "Java") (strLit "bare")).found = true ∧
    1 ≤ (qualityTool [⟨strLit "Java", true, [(strLit "bare", ⟨[], []⟩)]⟩]
        (strLit "Java") (strLit "bare")).score :=
  ⟨by decide,
   c10_found_score_min [⟨strLit "Java", true, [(strLit "bare", ⟨[], []⟩)]⟩]
     (strLit "Java") (strLit "bare") (by decide)⟩
